import Mathlib

/-!
Verification of the two Python utility scripts of the repository
(`test/invariants/crytictofoundry.py` and `create_dict.py`) against their
natural-language specification.

Text is modelled as `List Char`.  The scripts use Python's `re.sub`,
`str.replace` and `str.count`; these are embedded below.  `re.sub` is
embedded by a small backtracking matcher specialised to the constructs that
actually occur in the scripts' patterns: literal characters, the character
classes `[a-zA-z]`, `\d`, `[a-fA-F0-9]` and `.` (no DOTALL, so `.` does not
match a newline), the greedy quantifiers `+` and `*` applied to a single
class, and non-nested capturing groups.  Matching is leftmost-first with
greedy (longest-first) backtracking, exactly Python's semantics for these
patterns, and substitution scans the text left to right replacing
non-overlapping matches, continuing after each replacement.

`re.sub` also compiles its replacement string as a template before scanning
for matches, interpreting the escapes it contains and raising `re.error`
(or `IndexError` for an unknown group name) on an invalid escape or group
reference even when the pattern matches nowhere; `replStep`/`parseRepl`
below embed this compilation (`re._parser.parse_template`) for the
splicer's pattern.  The repository's data is ASCII text, and the embedding
models Python string semantics for ASCII text.

The matcher is given fuel to keep every definition structurally recursive
(hence kernel-reducible); one unit of fuel is spent per pattern item, so
`pattern length + 1` fuel is always sufficient, and the substitution driver
spends one unit of fuel per step while consuming at least one character per
step, so `text length + 1` fuel is always sufficient.
-/

def toL (s : String) : List Char := s.toList

/-- Character classes occurring in the scripts' regular expressions.
`azAZ` is the class `[a-zA-z]` exactly as written in the source (the second
range runs from capital `A` to lowercase `z`). -/
inductive CharCls where
  | azAZ
  | digit
  | hex
  | dot
deriving DecidableEq

def clsMem : CharCls → Char → Bool
  | CharCls.azAZ, c => decide ('a' ≤ c ∧ c ≤ 'z') || decide ('A' ≤ c ∧ c ≤ 'z')
  | CharCls.digit, c => decide ('0' ≤ c ∧ c ≤ '9')
  | CharCls.hex, c =>
      decide ('a' ≤ c ∧ c ≤ 'f') || decide ('A' ≤ c ∧ c ≤ 'F') ||
      decide ('0' ≤ c ∧ c ≤ '9')
  | CharCls.dot, c => decide (c ≠ '\n')

/-- One item of a regular expression: a literal character, a greedy
one-or-more / zero-or-more repetition of a character class, or a marker
opening / closing a (non-nested) capturing group. -/
inductive RItem where
  | ch : Char → RItem
  | plusCls : CharCls → RItem
  | starCls : CharCls → RItem
  | gopen : RItem
  | gclose : RItem
deriving DecidableEq

def litItems (l : List Char) : List RItem := l.map RItem.ch

/-- Matcher state: the suffix at which the currently open group started (if
any) and the completed capture groups in order of completion. -/
structure MSt where
  opn : Option (List Char)
  groups : List (List Char)

/-- Greedy backtracking over a repetition count: try `f k`, `f (k-1)`, ...,
`f lo` in this order and return the first success.  This is Python's
longest-first preference for a greedy quantifier. -/
def greedyDown (f : Nat → Option (List Char × List (List Char))) :
    Nat → Nat → Option (List Char × List (List Char))
  | 0, lo => if lo = 0 then f 0 else none
  | k+1, lo =>
    if k + 1 < lo then none
    else
      match f (k+1) with
      | some r => some r
      | none => greedyDown f k lo

/-- Backtracking matcher: try to match the item list at the start of `s`,
returning the remaining suffix and the captured groups of the first
(leftmost-first, greedy) match.  One unit of fuel is spent per item, so
`items.length + 1` fuel always suffices. -/
def matchItems : Nat → List RItem → MSt → List Char →
    Option (List Char × List (List Char))
  | 0, _, _, _ => none
  | _+1, [], st, s => some (s, st.groups)
  | fuel+1, it :: rest, st, s =>
    match it with
    | RItem.ch c =>
      match s with
      | [] => none
      | x :: xs => if x = c then matchItems fuel rest st xs else none
    | RItem.gopen => matchItems fuel rest { st with opn := some s } s
    | RItem.gclose =>
      match st.opn with
      | none => none
      | some os =>
        matchItems fuel rest
          { opn := none, groups := st.groups ++ [os.take (os.length - s.length)] } s
    | RItem.starCls cc =>
      greedyDown (fun k => matchItems fuel rest st (s.drop k))
        (s.takeWhile (clsMem cc)).length 0
    | RItem.plusCls cc =>
      greedyDown (fun k => matchItems fuel rest st (s.drop k))
        (s.takeWhile (clsMem cc)).length 1

/-- A piece of a substitution template: literal text or a (1-based)
group reference, as in Python replacement strings. -/
inductive TPart where
  | lit : List Char → TPart
  | grp : Nat → TPart

def instT (gs : List (List Char)) : List TPart → List Char
  | [] => []
  | TPart.lit l :: rest => l ++ instT gs rest
  | TPart.grp n :: rest => gs.getD (n - 1) [] ++ instT gs rest

/-- Substitution driver for `re.sub pat tmpl`: scan left to right; at each
position try the matcher; on a match emit the instantiated template and
continue after the matched text, otherwise emit the character and advance.
Each step consumes at least one character, so `s.length + 1` fuel always
suffices. -/
def reSub1 (pat : List RItem) (tmpl : List TPart) : Nat → List Char → List Char
  | 0, s => s
  | _+1, [] => []
  | fuel+1, c :: cs =>
    match matchItems (pat.length + 1) pat ⟨none, []⟩ (c :: cs) with
    | none => c :: reSub1 pat tmpl fuel cs
    | some (rem, gs) =>
      let consumed := (c :: cs).length - rem.length
      if consumed = 0 then c :: reSub1 pat tmpl fuel cs
      else instT gs tmpl ++ reSub1 pat tmpl fuel (List.drop consumed (c :: cs))

/-- Embedding of Python `re.sub(pat, tmpl, s)` for the patterns used by the
scripts. -/
def reSub (pat : List RItem) (tmpl : List TPart) (s : List Char) : List Char :=
  reSub1 pat tmpl (s.length + 1) s

/-- Embedding of Python `s.replace(old, new)`: replace every non-overlapping
occurrence, scanning left to right.  (Python's behaviour for an empty `old`
is irrelevant here and guarded away.) -/
def pyReplace1 (old new : List Char) : Nat → List Char → List Char
  | 0, s => s
  | _+1, [] => []
  | fuel+1, c :: cs =>
    if old ≠ [] ∧ old.isPrefixOf (c :: cs) then
      new ++ pyReplace1 old new fuel (List.drop old.length (c :: cs))
    else c :: pyReplace1 old new fuel cs

def pyReplace (s old new : List Char) : List Char :=
  pyReplace1 old new (s.length + 1) s

/-- Embedding of Python `s.count(pat)`: number of non-overlapping
occurrences, scanning left to right. -/
def pyCount1 (pat : List Char) : Nat → List Char → Nat
  | 0, _ => 0
  | _+1, [] => 0
  | fuel+1, c :: cs =>
    if pat ≠ [] ∧ pat.isPrefixOf (c :: cs) then
      pyCount1 pat fuel (List.drop pat.length (c :: cs)) + 1
    else pyCount1 pat fuel cs

def pyCount (s pat : List Char) : Nat := pyCount1 pat (s.length + 1) s

/-! ## The trace converter (`test/invariants/crytictofoundry.py`) -/

/-- Pattern of pass 2: `([a-zA-z]+\(.*\)) (Time delay: .*\n)`. -/
def pat2 : List RItem :=
  [RItem.gopen, RItem.plusCls CharCls.azAZ, RItem.ch '(',
   RItem.starCls CharCls.dot, RItem.ch ')', RItem.gclose, RItem.ch ' ',
   RItem.gopen] ++ litItems (toL "Time delay: ") ++
  [RItem.starCls CharCls.dot, RItem.ch '\n', RItem.gclose]

/-- Replacement of pass 2: `\2    \1\n`. -/
def tmpl2 : List TPart :=
  [TPart.grp 2, TPart.lit (toL "    "), TPart.grp 1, TPart.lit (toL "\n")]

/-- Pattern of pass 3: `Time delay: (\d+) .*\n`. -/
def pat3 : List RItem :=
  litItems (toL "Time delay: ") ++
  [RItem.gopen, RItem.plusCls CharCls.digit, RItem.gclose, RItem.ch ' ',
   RItem.starCls CharCls.dot, RItem.ch '\n']

/-- Replacement of pass 3: `vm.warp(block.timestamp + \1)\n`. -/
def tmpl3 : List TPart :=
  [TPart.lit (toL "vm.warp(block.timestamp + "), TPart.grp 1, TPart.lit (toL ")\n")]

/-- Pattern of pass 4: `\)`. -/
def pat4 : List RItem := [RItem.ch ')']

/-- Replacement of pass 4: `);`. -/
def tmpl4 : List TPart := [TPart.lit (toL ");")]

/-- Pattern of pass 5: `0x([a-fA-F0-9]+),`. -/
def pat5 : List RItem :=
  [RItem.ch '0', RItem.ch 'x', RItem.gopen, RItem.plusCls CharCls.hex,
   RItem.gclose, RItem.ch ',']

/-- Replacement of pass 5: `address(0x\1),`. -/
def tmpl5 : List TPart :=
  [TPart.lit (toL "address(0x"), TPart.grp 1, TPart.lit (toL "),")]

/-- Pattern of pass 6: four spaces. -/
def pat6 : List RItem := litItems (toL "    ")

/-- Replacement of pass 6: eight spaces. -/
def tmpl6 : List TPart := [TPart.lit (toL "        ")]

/-- Embedding of `outputToSol` from `crytictofoundry.py`, with the content of
`example.txt` passed as the argument (the `print` diagnostics after each
pass have no effect on the returned data and are omitted):
```
data = data.replace("*wait* ", "")
data = re.sub(r"([a-zA-z]+\(.*\)) (Time delay: .*\n)", r"\2    \1\n", data)
data = re.sub(r"Time delay: (\d+) .*\n", r"vm.warp(block.timestamp + \1)\n", data)
data = re.sub(r"\)", r");", data)
data = re.sub(r"0x([a-fA-F0-9]+),", r"address(0x\1),", data)
data = re.sub(r"    ", r"        ", data)
```
-/
def outputToSol (data0 : List Char) : List Char :=
  let data1 := pyReplace data0 (toL "*wait* ") []
  let data2 := reSub pat2 tmpl2 data1
  let data3 := reSub pat3 tmpl3 data2
  let data4 := reSub pat4 tmpl4 data3
  let data5 := reSub pat5 tmpl5 data4
  let data6 := reSub pat6 tmpl6 data5
  data6

/-- The two-adjacent-closing-markers sequence searched by the splicer: a
closing brace, a newline and a closing brace (the pattern `\}\n\}`). -/
def closeSeq : List Char := toL "\x7d\n\x7d"

/-- The function-declaration keyword counted by the splicer. -/
def kwFunction : List Char := toL "function"

/-- The raw replacement string the splicer hands to `re.sub` (the Python
source concatenates raw string literals, so the `\n` sequences are still
two characters, backslash and `n`, here):
`r"}\n\n    function test_" + str(ntest) + r"() public {\n" + content + r"    }\n}"`. -/
def replSrc (ntest : Nat) (content : List Char) : List Char :=
  toL "\x7d\\n\\n    function test_" ++ toL (Nat.repr ntest) ++
  toL "() public \x7b\\n" ++ content ++ toL "    \x7d\\n\x7d"

/-- The text the raw replacement string compiles to when the spliced
`content` contains no backslash: `re.sub` interprets the `\n` escapes of
the fixed raw chunks as newlines and leaves everything else unchanged. -/
def mkRepl (ntest : Nat) (content : List Char) : List Char :=
  toL "\x7d\n\n    function test_" ++ toL (Nat.repr ntest) ++
  toL "() public \x7b\n" ++ content ++ toL "    \x7d\n\x7d"

def isDigC (c : Char) : Bool := decide ('0' ≤ c ∧ c ≤ '9')

def isOctC (c : Char) : Bool := decide ('0' ≤ c ∧ c ≤ '7')

def isAsciiAlpha (c : Char) : Bool :=
  decide ('a' ≤ c ∧ c ≤ 'z') || decide ('A' ≤ c ∧ c ≤ 'Z')

def octVal (c : Char) : Nat := c.toNat - '0'.toNat

/-- The fixed escapes of Python replacement templates (`ESCAPES` in
`re._parser`): `\a \b \f \n \r \t \v \\`. -/
def escChar (c : Char) : Option Char :=
  if c = 'a' then some (Char.ofNat 7)
  else if c = 'b' then some (Char.ofNat 8)
  else if c = 'f' then some (Char.ofNat 12)
  else if c = 'n' then some '\n'
  else if c = 'r' then some (Char.ofNat 13)
  else if c = 't' then some '\t'
  else if c = 'v' then some (Char.ofNat 11)
  else if c = '\\' then some '\\'
  else none

/-- Scan a `\g<...>` group name: the characters up to the first `>` and the
remainder after it; `none` when the name is unterminated. -/
def gName : List Char → Option (List Char × List Char)
  | [] => none
  | c :: r => if c = '>' then some ([], r) else (gName r).map (fun p => (c :: p.1, p.2))

def isPySpace (c : Char) : Bool :=
  c = ' ' || c = '\t' || c = '\n' || c = '\x0b' || c = '\x0c' || c = '\x0d'

/-- After the leading `0`: the rest of an all-zero digit run with single
underscores allowed between digits (Python `int` literal grammar). -/
def zeroTail : List Char → Bool
  | [] => true
  | '_' :: rest =>
    match rest with
    | c :: r2 => c = '0' && zeroTail r2
    | [] => false
  | c :: rest => c = '0' && zeroTail rest

/-- Whether a `\g<...>` group name denotes the group index 0 (the whole
match), i.e. whether Python's `int(name)` accepts `name` with value 0:
optional whitespace, an optional sign directly before the digits, an
all-zero digit run with single underscores between digits, optional
trailing whitespace.  (Python's `int` additionally accepts non-ASCII
decimal digits and whitespace; the repository's data is ASCII and those
spellings are not modelled.)  Any other name is an error for the splicer's
pattern: a nonzero index exceeds its zero capture groups, a symbolic name
is unknown, and anything else is a bad character in a group name. -/
def isPyZeroName (nm : List Char) : Bool :=
  let t1 := nm.dropWhile isPySpace
  let t2 := ((t1.reverse.dropWhile isPySpace).reverse)
  let body := match t2 with
    | '+' :: r => r
    | '-' :: r => r
    | r => r
  match body with
  | '0' :: rest => zeroTail rest
  | _ => false

/-- One step of Python's replacement-template compilation
(`re._parser.parse_template`), for the splicer's pattern `\}\n\}` (zero
capture groups, and every match is exactly the literal closing sequence, so
a `\g<0>`-style whole-match reference denotes `closeSeq`).  Given a
non-empty template remainder, return the emitted text together with the
number of characters consumed minus one (every step consumes at least one
character), or `none` for a template error (`re.error` / `IndexError`),
which Python raises when `re.sub` compiles the template, before scanning
for matches:
- a trailing lone backslash is a bad escape;
- `\g` must be followed by `<name>`; an unterminated, empty, unknown or
  ill-formed name is an error, and a numeric name must denote group 0;
- `\0` with up to two more octal digits is an octal escape;
- `\d...` starting with a nonzero digit is a three-octal-digit escape when
  all three digits are octal (error above `\377`), otherwise a one- or
  two-digit group reference, which exceeds the zero capture groups;
- `\a \b \f \n \r \t \v \\` are the fixed escapes;
- a backslash before any other ASCII letter is a bad escape; before a
  non-letter both characters are kept. -/
def replStep : List Char → Option (List Char × Nat)
  | [] => none
  | c :: rest =>
    if c = '\\' then
      match rest with
      | [] => none
      | e :: r2 =>
        if e = 'g' then
          match r2 with
          | '<' :: r3 =>
            match gName r3 with
            | none => none
            | some (nm, _) =>
              if isPyZeroName nm then some (closeSeq, nm.length + 3) else none
          | _ => none
        else if e = '0' then
          match r2 with
          | d1 :: r3 =>
            if isOctC d1 then
              match r3 with
              | d2 :: _ =>
                if isOctC d2 then some ([Char.ofNat (8 * octVal d1 + octVal d2)], 3)
                else some ([Char.ofNat (octVal d1)], 2)
              | [] => some ([Char.ofNat (octVal d1)], 2)
            else some ([Char.ofNat 0], 1)
          | [] => some ([Char.ofNat 0], 1)
        else if isDigC e then
          match r2 with
          | d2 :: r3 =>
            if isDigC d2 then
              if isOctC e ∧ isOctC d2 then
                match r3 with
                | d3 :: _ =>
                  if isOctC d3 then
                    if 64 * octVal e + 8 * octVal d2 + octVal d3 ≤ 255 then
                      some ([Char.ofNat (64 * octVal e + 8 * octVal d2 + octVal d3)], 3)
                    else none
                  else none
                | [] => none
              else none
            else none
          | [] => none
        else
          match escChar e with
          | some ec => some ([ec], 1)
          | none => if isAsciiAlpha e then none else some (['\\', e], 1)
    else some ([c], 0)

/-- Template compilation: iterate `replStep` over the whole raw replacement
string, resuming after the consumed characters.  Each step consumes at
least one character and one unit of fuel, so `length + 1` fuel always
suffices; `none` is the eagerly raised template error. -/
def parseRepl1 : Nat → List Char → Option (List Char)
  | 0, _ => none
  | _+1, [] => some []
  | fuel+1, c :: cs =>
    match replStep (c :: cs) with
    | none => none
    | some (em, k) => (parseRepl1 fuel (cs.drop k)).map (fun t => em ++ t)

def parseRepl (s : List Char) : Option (List Char) :=
  parseRepl1 (s.length + 1) s

/-- Embedding of `fillFile` from `crytictofoundry.py`, acting on the target
file's content (`data`, read from `<folder>/CryticToFoundry.t.sol`) and
returning the content written back:
```
ntest = data.count("function")
data = re.sub(r"\}\n\}", r"}\n\n    function test_" + str(ntest)
              + r"() public {\n" + content + r"    }\n}", data)
```
`re.sub` first compiles the concatenated replacement string as a template
(interpreting the escapes it contains, including those inside `content`);
a template error is raised even when the pattern matches nowhere, and is
modelled by `none` (no file is written then). -/
def fillFileData (content data : List Char) : Option (List Char) :=
  let ntest := pyCount data kwFunction
  (parseRepl (replSrc ntest content)).map
    (fun repl => reSub (litItems closeSeq) [TPart.lit repl] data)

/-- Embedding of the folder selection at the top of `crytictofoundry.py`:
```
folder = "ig"
if len(sys.argv):
    folder = sys.argv[1]
```
`none` models the uncaught `IndexError` raised by `sys.argv[1]` when the
argument list has fewer than two elements (Python's `if len(sys.argv):`
tests truthiness, i.e. nonzero length). -/
def folderArg (argv : List (List Char)) : Option (List Char) :=
  if argv.length = 0 then some (toL "ig") else argv[1]?

/-- Embedding of the whole trace-converter run: the folder argument is
evaluated first (at module top level); only if it succeeds are the files
read and the rewritten target content produced.  The result pairs the
selected folder with the new content of `<folder>/CryticToFoundry.t.sol`;
`none` models the uncaught `IndexError`, which occurs before any file is
opened, read or written (hence the result does not depend on either file's
content in that case). -/
def runConverter (argv : List (List Char)) (exampleTxt targetData : List Char) :
    Option (List Char × List Char) :=
  match folderArg argv with
  | none => none
  | some f =>
    match fillFileData (outputToSol exampleTxt) targetData with
    | none => none
    | some newData => some (f, newData)

/-! ## The address-book builder (`create_dict.py`) -/

/-- A broadcast-record transaction, with the fields `create_dict.py` reads. -/
structure Tx where
  transactionType : List Char
  contractName : List Char
  contractAddress : List Char
  arguments : List (List Char)
deriving DecidableEq

def createType : List Char := toL "CREATE"

def tokenName : List Char := toL "TestnetToken"

/-- `create_ct_txs = [tx for tx in data["transactions"] if tx["transactionType"] == "CREATE"]`. -/
def create_ct_txs (txs : List Tx) : List Tx :=
  txs.filter (fun tx => tx.transactionType == createType)

/-- The key under which a creation transaction is stored:
`tx['arguments'][1] if tx['contractName'] == "TestnetToken" else tx['contractName']`.
`none` models the `IndexError` raised when a `TestnetToken` transaction has
fewer than two arguments. -/
def txKey (tx : Tx) : Option (List Char) :=
  if tx.contractName = tokenName then tx.arguments[1]? else some tx.contractName

/-- Python dict assignment `d[k] = v` on an insertion-ordered association
list: update the value in place if the key is present, else append. -/
def dictSet (k v : List Char) : List (List Char × List Char) →
    List (List Char × List Char)
  | [] => [(k, v)]
  | (k', v') :: rest => if k' = k then (k, v) :: rest else (k', v') :: dictSet k v rest

/-- The loop `for tx in create_ct_txs: contracts[contract_name] = tx['contractAddress']`. -/
def addCreateTxs : List Tx → List (List Char × List Char) →
    Option (List (List Char × List Char))
  | [], acc => some acc
  | tx :: rest, acc =>
    match txKey tx with
    | none => none
    | some k => addCreateTxs rest (dictSet k tx.contractAddress acc)

/-- Embedding of the `contracts` dictionary built by `create_dict.py` from
the concatenated transaction lists of the broadcast records (the script
iterates over a fixed list of record files in order; `txs` is the
concatenation of their `transactions` arrays in that order). -/
def buildContracts (txs : List Tx) : Option (List (List Char × List Char)) :=
  addCreateTxs (create_ct_txs txs) []

def keysOf (d : List (List Char × List Char)) : List (List Char) :=
  d.map Prod.fst

/-- Per-character effect of pass 4 (`re.sub(r"\)", r");", data)`): every
closing parenthesis, wherever it occurs, is replaced by `);`. -/
def term1 (c : Char) : List Char := if c = ')' then [')', ';'] else [c]

/-- A sample target test file containing exactly two `function` occurrences
and one occurrence of the closing-marker sequence. -/
def demo2File : List Char :=
  toL "contract X \x7b\n    function a() \x7b\n    \x7d\n    function b() \x7b\n    \x7d\n\x7d\n"

/-- A sample `TestnetToken` creation transaction whose first constructor
argument is `first` and whose second is `second`. -/
def tokTx : Tx :=
  { transactionType := createType, contractName := tokenName,
    contractAddress := toL "0xA1", arguments := [toL "first", toL "second"] }

/-- A sample `TestnetToken` creation transaction with two arguments. -/
def demoTok : Tx :=
  { transactionType := createType, contractName := tokenName,
    contractAddress := toL "0xT1", arguments := [toL "0xdeployer", toL "USDC"] }

/-- A sample transaction list: an ordinary creation, a token creation and a
non-creation call. -/
def demoTxs : List Tx :=
  [ { transactionType := createType, contractName := toL "Vault",
      contractAddress := toL "0xV1", arguments := [] },
    demoTok,
    { transactionType := toL "CALL", contractName := toL "Vault",
      contractAddress := toL "0xV1", arguments := [toL "x"] } ]

/-- The dictionary `create_dict.py` builds from `demoTxs`. -/
def demoDict : List (List Char × List Char) :=
  [(toL "Vault", toL "0xV1"), (toL "USDC", toL "0xT1")]

/-- The segments of a text around the occurrences of a separator:
`sepJoin sep [s0, s1, ..., sk] = s0 ++ sep ++ s1 ++ sep ++ ... ++ sep ++ sk`.
A text with exactly `k ≥ 1` occurrences of `sep` decomposes this way with
`k + 1` segments. -/
def sepJoin (sep : List Char) : List (List Char) → List Char
  | [] => []
  | [s] => s
  | s :: rest => s ++ sep ++ sepJoin sep rest

/-- The designated separator occurrences of `sepJoin sep segs` are the only
ones: no occurrence of `sep` starts inside a segment (also not straddling
into the following text), and none occurs in the final segment. -/
def sepClean (sep : List Char) : List (List Char) → Prop
  | [] => True
  | [s] => ¬ (sep <:+: s)
  | s :: rest =>
    (∀ i, i < s.length → ¬ (sep <+: (s ++ sep ++ sepJoin sep rest).drop i)) ∧
    sepClean sep rest

/-! ## Lemmas about the substitution engine on literal patterns -/

theorem matchItems_lit (pat : List Char) :
    ∀ (f : Nat) (st : MSt) (s : List Char), pat.length + 1 ≤ f →
      matchItems f (litItems pat) st s =
        if pat.isPrefixOf s then some (s.drop pat.length, st.groups) else none := by
  induction pat with
  | nil =>
    intro f st s hf
    match f, hf with
    | f+1, _ => simp [litItems, matchItems, List.isPrefixOf]
  | cons p ps ih =>
    intro f st s hf
    match f, hf with
    | f+1, hf =>
      cases s with
      | nil => simp [litItems, matchItems, List.isPrefixOf]
      | cons x xs =>
        simp only [litItems, List.map_cons, matchItems, List.isPrefixOf]
        by_cases hx : x = p
        · subst hx
          have := ih f st xs (by simpa using Nat.le_of_succ_le_succ hf)
          simp only [litItems] at this
          simp [this, List.drop_succ_cons]
        · have hnc : ¬ (p = x ∧ ps <+: xs) := fun hcc => hx hcc.1.symm
          simp [hx, hnc]

theorem reSub1_pat4 : ∀ (f : Nat) (s : List Char), s.length < f →
    reSub1 pat4 tmpl4 f s = s.flatMap term1 := by
  intro f
  induction f with
  | zero => intro s h; omega
  | succ f ih =>
    intro s h
    cases s with
    | nil => simp [reSub1]
    | cons c cs =>
      have hm := matchItems_lit [')'] (pat4.length + 1) ⟨none, []⟩ (c :: cs)
        (by simp [pat4])
      have hpat : litItems [')'] = pat4 := rfl
      rw [hpat] at hm
      simp only [reSub1, hm]
      have h1 : cs.length < f := by
        simp only [List.length_cons] at h
        omega
      by_cases hc : c = ')'
      · subst hc
        have hpre : [')'].isPrefixOf (')' :: cs) = true := by
          simp [List.isPrefixOf]
        rw [if_pos hpre]
        simp only [List.length_cons, List.length_drop, List.length_nil,
          List.drop_succ_cons, List.drop_zero, Nat.sub_zero]
        rw [Nat.add_sub_cancel_left]
        simp only [if_neg (Nat.one_ne_zero)]
        rw [show List.drop 1 (')' :: cs) = cs from rfl, ih cs h1]
        have htl : toL ");" = [')', ';'] := by decide
        simp [instT, tmpl4, term1, htl]
      · have hpre : [')'].isPrefixOf (c :: cs) = false := by
          simp only [List.isPrefixOf, List.isPrefixOf_iff_prefix, Bool.and_eq_false_iff]
          simp [List.cons_prefix_cons]
          exact fun hcc => absurd hcc.symm hc
        rw [hpre]
        simp only [Bool.false_eq_true, if_false]
        rw [ih cs h1]
        simp [term1, hc]

theorem flatMap_term1_id : ∀ (a : List Char), (∀ c ∈ a, c ≠ ')') →
    a.flatMap term1 = a := by
  intro a
  induction a with
  | nil => intro _; rfl
  | cons c cs ih =>
    intro h
    have hc : c ≠ ')' := h c (List.mem_cons_self c cs)
    have hcs : ∀ x ∈ cs, x ≠ ')' := fun x hx => h x (List.mem_cons_of_mem c hx)
    simp [term1, hc, ih hcs]

theorem length_le_flatMap_term1 : ∀ (s : List Char),
    s.length ≤ (s.flatMap term1).length := by
  intro s
  induction s with
  | nil => simp
  | cons c cs ih =>
    simp only [List.flatMap_cons, List.length_append, List.length_cons]
    have : 1 ≤ (term1 c).length := by
      unfold term1
      split <;> simp
    omega

theorem length_lt_flatMap_term1 : ∀ (s : List Char), ')' ∈ s →
    s.length < (s.flatMap term1).length := by
  intro s hs
  induction s with
  | nil => cases hs
  | cons c cs ih =>
    simp only [List.flatMap_cons, List.length_append, List.length_cons]
    rcases List.mem_cons.mp hs with h1 | h2
    · have : (term1 c).length = 2 := by simp [term1, h1.symm]
      have := length_le_flatMap_term1 cs
      omega
    · have h1 : 1 ≤ (term1 c).length := by
        unfold term1
        split <;> simp
      have := ih h2
      omega

theorem reSub1_lit_id (pat repl : List Char) :
    ∀ (f : Nat) (s : List Char), s.length < f → ¬ (pat <:+: s) →
      reSub1 (litItems pat) [TPart.lit repl] f s = s := by
  intro f
  induction f with
  | zero => intro s hl _; omega
  | succ f ih =>
    intro s hl hinf
    cases s with
    | nil => simp [reSub1]
    | cons c cs =>
      have hm := matchItems_lit pat ((litItems pat).length + 1) ⟨none, []⟩ (c :: cs)
        (by simp [litItems])
      have hpre : pat.isPrefixOf (c :: cs) = false :=
        Bool.eq_false_iff.mpr
          (fun hT => hinf (List.isPrefixOf_iff_prefix.mp hT).isInfix)
      simp only [reSub1, hm, hpre, Bool.false_eq_true, if_false]
      have h1 : cs.length < f := by
        simp only [List.length_cons] at hl
        omega
      have h2 : ¬ (pat <:+: cs) := fun hi => hinf (List.infix_cons hi)
      rw [ih cs h1 h2]

theorem reSub1_lit_infix (pat repl : List Char) (hne : pat ≠ []) :
    ∀ (f : Nat) (s : List Char), s.length < f → pat <:+: s →
      repl <:+: reSub1 (litItems pat) [TPart.lit repl] f s := by
  intro f
  induction f with
  | zero => intro s hl _; omega
  | succ f ih =>
    intro s hl hinf
    cases s with
    | nil => exact absurd (List.infix_nil.mp hinf) hne
    | cons c cs =>
      have hm := matchItems_lit pat ((litItems pat).length + 1) ⟨none, []⟩ (c :: cs)
        (by simp [litItems])
      by_cases hP : pat <+: (c :: cs)
      · have hpre : pat.isPrefixOf (c :: cs) = true := List.isPrefixOf_iff_prefix.mpr hP
        simp only [reSub1, hm, hpre, if_true]
        have hplen : pat.length ≤ (c :: cs).length := hP.length_le
        have hcons : (c :: cs).length - (List.drop pat.length (c :: cs)).length
            = pat.length := by
          simp only [List.length_drop]
          omega
        rw [hcons]
        have hnz : pat.length ≠ 0 := fun h0 => hne (List.length_eq_zero.mp h0)
        rw [if_neg hnz]
        simp only [instT, List.append_nil]
        exact (List.prefix_append repl _).isInfix
      · have hpre : pat.isPrefixOf (c :: cs) = false :=
          Bool.eq_false_iff.mpr (fun hT => hP (List.isPrefixOf_iff_prefix.mp hT))
        simp only [reSub1, hm, hpre, Bool.false_eq_true, if_false]
        have h1 : cs.length < f := by
          simp only [List.length_cons] at hl
          omega
        have h2 : pat <:+: cs := (List.infix_cons_iff.mp hinf).resolve_left hP
        exact List.infix_cons (ih cs h1 h2)

theorem reSub1_lit_split (pat repl : List Char) (hne : pat ≠ []) :
    ∀ (a : List Char) (f : Nat) (b : List Char), (a ++ pat ++ b).length < f →
      (∀ i, i < a.length → ¬ (pat <+: (a ++ pat ++ b).drop i)) →
      ¬ (pat <:+: b) →
      reSub1 (litItems pat) [TPart.lit repl] f (a ++ pat ++ b) = a ++ repl ++ b := by
  intro a
  induction a with
  | nil =>
    intro f b hf _ hb
    match f, hf with
    | f+1, hf =>
      have hplen : 1 ≤ pat.length := by
        cases pat with
        | nil => exact absurd rfl hne
        | cons p ps => simp
      simp only [List.nil_append] at hf ⊢
      cases hp : pat with
      | nil => exact absurd hp hne
      | cons p ps =>
        rw [← hp]
        have hform : pat ++ b = p :: (ps ++ b) := by rw [hp]; rfl
        rw [hform]
        have hm := matchItems_lit pat ((litItems pat).length + 1) ⟨none, []⟩
          (p :: (ps ++ b)) (by simp [litItems])
        have hpre : pat.isPrefixOf (p :: (ps ++ b)) = true := by
          rw [← hform]
          exact List.isPrefixOf_iff_prefix.mpr (List.prefix_append pat b)
        simp only [reSub1, hm, hpre, if_true]
        have hlen1 : (p :: (ps ++ b)).length = pat.length + b.length := by
          rw [← hform]
          simp
        have hplen2 : pat.length ≤ (p :: (ps ++ b)).length := by omega
        have hcons : (p :: (ps ++ b)).length
            - (List.drop pat.length (p :: (ps ++ b))).length = pat.length := by
          simp only [List.length_drop]
          omega
        rw [hcons]
        have hnz : pat.length ≠ 0 := by omega
        rw [if_neg hnz]
        have hdrop : List.drop pat.length (p :: (ps ++ b)) = b := by
          rw [← hform]
          exact List.drop_left pat b
        rw [hdrop]
        have hbf : b.length < f := by
          simp only [List.length_append] at hf
          omega
        rw [reSub1_lit_id pat repl f b hbf hb]
        simp only [instT, List.append_nil]
  | cons c a' ih =>
    intro f b hf h1 hb
    match f, hf with
    | f+1, hf =>
      have hnp : ¬ (pat <+: (c :: (a' ++ pat ++ b))) := by
        have := h1 0 (by simp)
        simpa using this
      have hpre : pat.isPrefixOf (c :: (a' ++ pat ++ b)) = false :=
        Bool.eq_false_iff.mpr (fun hT => hnp (List.isPrefixOf_iff_prefix.mp hT))
      have hform : (c :: a') ++ pat ++ b = c :: (a' ++ pat ++ b) := by simp
      rw [hform]
      have hm := matchItems_lit pat ((litItems pat).length + 1) ⟨none, []⟩
        (c :: (a' ++ pat ++ b)) (by simp [litItems])
      simp only [reSub1, hm, hpre, Bool.false_eq_true, if_false]
      have hlf : (a' ++ pat ++ b).length < f := by
        rw [hform] at hf
        simp only [List.length_cons] at hf
        omega
      have h1' : ∀ i, i < a'.length → ¬ (pat <+: (a' ++ pat ++ b).drop i) := by
        intro i hi
        have := h1 (i + 1) (by simp only [List.length_cons]; omega)
        rw [hform] at this
        simpa [List.drop_succ_cons] using this
      rw [ih f b hlf h1' hb]
      simp

/-! ## Lemmas about the address dictionary -/

theorem mem_keysOf_dictSet (k v m : List Char) :
    ∀ d, m ∈ keysOf (dictSet k v d) ↔ m = k ∨ m ∈ keysOf d := by
  intro d
  induction d with
  | nil => simp [dictSet, keysOf]
  | cons p rest ih =>
    obtain ⟨k', v'⟩ := p
    by_cases hk : k' = k
    · subst hk
      simp [dictSet, keysOf]
    · simp only [dictSet, if_neg hk, keysOf, List.map_cons, List.mem_cons]
      simp only [keysOf] at ih
      rw [ih]
      tauto

theorem nodup_keysOf_dictSet (k v : List Char) :
    ∀ d, (keysOf d).Nodup → (keysOf (dictSet k v d)).Nodup := by
  intro d
  induction d with
  | nil => intro _; simp [dictSet, keysOf]
  | cons p rest ih =>
    obtain ⟨k', v'⟩ := p
    intro hnd
    simp only [keysOf, List.map_cons, List.nodup_cons] at hnd
    by_cases hk : k' = k
    · subst hk
      simpa [dictSet, keysOf, List.nodup_cons] using hnd
    · simp only [dictSet, if_neg hk, keysOf, List.map_cons, List.nodup_cons]
      constructor
      · intro hmem
        rcases (mem_keysOf_dictSet k v k' rest).mp hmem with h1 | h2
        · exact hk h1
        · exact hnd.1 h2
      · exact ih hnd.2

theorem mem_dictSet (k v : List Char) (p : List Char × List Char) :
    ∀ d, p ∈ dictSet k v d → p = (k, v) ∨ p ∈ d := by
  intro d
  induction d with
  | nil => simp [dictSet]
  | cons q rest ih =>
    obtain ⟨k', v'⟩ := q
    by_cases hk : k' = k
    · subst hk
      intro h
      simp only [dictSet, if_pos rfl] at h
      rcases List.mem_cons.mp h with h1 | h2
      · exact Or.inl h1
      · exact Or.inr (List.mem_cons_of_mem _ h2)
    · intro h
      simp only [dictSet, if_neg hk] at h
      rcases List.mem_cons.mp h with h1 | h2
      · exact Or.inr (h1 ▸ List.mem_cons_self _ _)
      · rcases ih h2 with h3 | h4
        · exact Or.inl h3
        · exact Or.inr (List.mem_cons_of_mem _ h4)

theorem addCreateTxs_nodup :
    ∀ (l : List Tx) (acc d : List (List Char × List Char)),
      addCreateTxs l acc = some d → (keysOf acc).Nodup → (keysOf d).Nodup := by
  intro l
  induction l with
  | nil =>
    intro acc d h hnd
    simp only [addCreateTxs, Option.some.injEq] at h
    exact h ▸ hnd
  | cons tx rest ih =>
    intro acc d h hnd
    simp only [addCreateTxs] at h
    cases hk : txKey tx with
    | none => rw [hk] at h; cases h
    | some k =>
      rw [hk] at h
      exact ih _ d h (nodup_keysOf_dictSet k tx.contractAddress acc hnd)

theorem addCreateTxs_keys :
    ∀ (l : List Tx) (acc d : List (List Char × List Char)) (m : List Char),
      addCreateTxs l acc = some d →
      (m ∈ keysOf d ↔ m ∈ keysOf acc ∨ ∃ tx, tx ∈ l ∧ txKey tx = some m) := by
  intro l
  induction l with
  | nil =>
    intro acc d m h
    simp only [addCreateTxs, Option.some.injEq] at h
    subst h
    simp
  | cons tx rest ih =>
    intro acc d m h
    simp only [addCreateTxs] at h
    cases hk : txKey tx with
    | none => rw [hk] at h; cases h
    | some k =>
      rw [hk] at h
      rw [ih _ d m h, mem_keysOf_dictSet]
      constructor
      · rintro ((h1 | h2) | h3)
        · exact Or.inr ⟨tx, List.mem_cons_self tx rest, h1 ▸ hk⟩
        · exact Or.inl h2
        · obtain ⟨tx', htx', hkey'⟩ := h3
          exact Or.inr ⟨tx', List.mem_cons_of_mem tx htx', hkey'⟩
      · rintro (h1 | ⟨tx', htx', hkey'⟩)
        · exact Or.inl (Or.inr h1)
        · rcases List.mem_cons.mp htx' with h2 | h3
          · subst h2
            rw [hk] at hkey'
            exact Or.inl (Or.inl (Option.some.injEq _ _ ▸ hkey'.symm ▸ rfl))
          · exact Or.inr ⟨tx', h3, hkey'⟩

theorem addCreateTxs_mem :
    ∀ (l : List Tx) (acc d : List (List Char × List Char)) (p : List Char × List Char),
      addCreateTxs l acc = some d → p ∈ d →
      p ∈ acc ∨ ∃ tx, tx ∈ l ∧ txKey tx = some p.1 ∧ p.2 = tx.contractAddress := by
  intro l
  induction l with
  | nil =>
    intro acc d p h hp
    simp only [addCreateTxs, Option.some.injEq] at h
    exact Or.inl (h ▸ hp)
  | cons tx rest ih =>
    intro acc d p h hp
    simp only [addCreateTxs] at h
    cases hk : txKey tx with
    | none => rw [hk] at h; cases h
    | some k =>
      rw [hk] at h
      rcases ih _ d p h hp with h1 | ⟨tx', htx', hkey', haddr'⟩
      · rcases mem_dictSet k tx.contractAddress p acc h1 with h2 | h3
        · subst h2
          exact Or.inr ⟨tx, List.mem_cons_self tx rest, by simp [hk], rfl⟩
        · exact Or.inl h3
      · exact Or.inr ⟨tx', List.mem_cons_of_mem tx htx', hkey', haddr'⟩

theorem addCreateTxs_ok :
    ∀ (l : List Tx) (acc d : List (List Char × List Char)) (tx : Tx),
      addCreateTxs l acc = some d → tx ∈ l → ∃ k, txKey tx = some k := by
  intro l
  induction l with
  | nil => intro acc d tx _ htx; cases htx
  | cons tx0 rest ih =>
    intro acc d tx h htx
    simp only [addCreateTxs] at h
    cases hk : txKey tx0 with
    | none => rw [hk] at h; cases h
    | some k =>
      rw [hk] at h
      rcases List.mem_cons.mp htx with h1 | h2
      · exact ⟨k, h1 ▸ hk⟩
      · exact ih _ d tx h h2

theorem mem_create_ct_txs (tx : Tx) (txs : List Tx) :
    tx ∈ create_ct_txs txs ↔ tx ∈ txs ∧ tx.transactionType = createType := by
  simp [create_ct_txs, List.mem_filter]

/-! ## The claims -/

/-- C1 (counterexample): the full rewrite pipeline is not idempotent: on the
input `foo()\n` a second application is not a no-op (the first application
yields `foo();\n`, the second `foo();;\n`, because the statement-termination
pass re-matches the closing parenthesis of its own output). -/
theorem c1_counterexample :
    outputToSol (outputToSol (toL "foo()\n")) ≠ outputToSol (toL "foo()\n") := by
  decide

/-- C1 (amended): applying the full rewrite pipeline a second time is not a
no-op in general: the statement-termination pass appends a further
terminator after every closing parenthesis of the already-rewritten text,
so re-applying it to any text containing a closing parenthesis changes the
text; concretely `transform("foo()\n") = "foo();\n"` while
`transform("foo();\n") = "foo();;\n"`.  The pipeline is a no-op on the
empty input. -/
theorem c1_amended :
    outputToSol (toL "foo()\n") = toL "foo();\n" ∧
    outputToSol (toL "foo();\n") = toL "foo();;\n" ∧
    outputToSol [] = [] ∧
    ∀ s : List Char, ')' ∈ s → reSub pat4 tmpl4 s ≠ s := by
  refine ⟨by decide, by decide, by decide, ?_⟩
  intro s hs heq
  rw [reSub, reSub1_pat4 _ _ (Nat.lt_succ_self _)] at heq
  have h1 := length_lt_flatMap_term1 s hs
  rw [heq] at h1
  omega

/-- C1 (witness for the amended claim): the termination pass changes the
text `f()`. -/
theorem c1_amended_w : reSub pat4 tmpl4 (toL "f()") ≠ toL "f()" :=
  c1_amended.2.2.2 (toL "f()") (by decide)

/-- C2 (counterexample): the statement-termination pass (a blanket
`re.sub(r"\)", r");")`) inserts a terminator after a closing parenthesis
that is *not* at the end of a line: the pipeline rewrites `foo(1) bar\n` to
`foo(1); bar\n`, although the input line does not end in a closing
parenthesis, refuting "no terminator is inserted after a closing
parenthesis that is not at the end of a line". -/
theorem c2_counterexample :
    outputToSol (toL "foo(1) bar\n") = toL "foo(1); bar\n" ∧
    outputToSol (toL "foo(1) bar\n") ≠ toL "foo(1) bar\n" :=
  ⟨by decide, by decide⟩

/-- C2 (amended): the statement-termination pass appends a terminator
immediately after *every* closing parenthesis, wherever it occurs (in
particular after every line-final one); the delay-materialization output
`vm.warp(block.timestamp + 10)\n`, which reaches this pass unterminated,
receives exactly one terminator. -/
theorem c2_amended (a b : List Char) (h : ∀ c ∈ a, c ≠ ')') :
    reSub pat4 tmpl4 (a ++ ')' :: b) = a ++ ')' :: ';' :: reSub pat4 tmpl4 b ∧
    reSub pat4 tmpl4 (toL "vm.warp(block.timestamp + 10)\n") =
      toL "vm.warp(block.timestamp + 10);\n" := by
  constructor
  · rw [reSub, reSub1_pat4 _ _ (Nat.lt_succ_self _),
      reSub, reSub1_pat4 _ _ (Nat.lt_succ_self _)]
    rw [List.flatMap_append, flatMap_term1_id a h, List.flatMap_cons]
    simp [term1]
  · decide

/-- C2 (witness for the amended claim): instance at a concrete split whose
left part `x = f(1` contains no closing parenthesis. -/
theorem c2_amended_w :
    (∀ c ∈ toL "x = f(1", c ≠ ')') ∧
    (reSub pat4 tmpl4 (toL "x = f(1" ++ ')' :: toL " + g(2\n") =
       toL "x = f(1" ++ ')' :: ';' :: reSub pat4 tmpl4 (toL " + g(2\n") ∧
     reSub pat4 tmpl4 (toL "vm.warp(block.timestamp + 10)\n") =
       toL "vm.warp(block.timestamp + 10);\n") :=
  ⟨by decide, c2_amended (toL "x = f(1") (toL " + g(2\n") (by decide)⟩

/-- C3: on the input line `*wait* foo(0xAB12,) Time delay: 10 seconds\n` the
pipeline passes through exactly the intermediate forms of spec Scenario 1
and produces `vm.warp(block.timestamp + 10);\n` followed by the 8-space
indented `foo(address(0xAB12),);\n`. -/
theorem c3_scenario1 :
    pyReplace (toL "*wait* foo(0xAB12,) Time delay: 10 seconds\n") (toL "*wait* ") [] =
      toL "foo(0xAB12,) Time delay: 10 seconds\n" ∧
    reSub pat2 tmpl2 (toL "foo(0xAB12,) Time delay: 10 seconds\n") =
      toL "Time delay: 10 seconds\n    foo(0xAB12,)\n" ∧
    reSub pat3 tmpl3 (toL "Time delay: 10 seconds\n    foo(0xAB12,)\n") =
      toL "vm.warp(block.timestamp + 10)\n    foo(0xAB12,)\n" ∧
    reSub pat4 tmpl4 (toL "vm.warp(block.timestamp + 10)\n    foo(0xAB12,)\n") =
      toL "vm.warp(block.timestamp + 10);\n    foo(0xAB12,);\n" ∧
    reSub pat5 tmpl5 (toL "vm.warp(block.timestamp + 10);\n    foo(0xAB12,);\n") =
      toL "vm.warp(block.timestamp + 10);\n    foo(address(0xAB12),);\n" ∧
    reSub pat6 tmpl6 (toL "vm.warp(block.timestamp + 10);\n    foo(address(0xAB12),);\n") =
      toL "vm.warp(block.timestamp + 10);\n        foo(address(0xAB12),);\n" ∧
    outputToSol (toL "*wait* foo(0xAB12,) Time delay: 10 seconds\n") =
      toL "vm.warp(block.timestamp + 10);\n        foo(address(0xAB12),);\n" := by
  refine ⟨by decide, by decide, by decide, by decide, by decide, by decide, by decide⟩

/-- C7 (code bug): invoked with no positional argument (argument list
`["crytictofoundry.py"]`), the converter does not default the folder to
`ig`: since `len(sys.argv)` is 1 and hence truthy, the script evaluates
`sys.argv[1]` and raises an uncaught `IndexError` (modelled by `none`), so
the whole run aborts regardless of file contents. -/
theorem c7_default_folder_bug :
    folderArg [toL "crytictofoundry.py"] = none ∧
    runConverter [toL "crytictofoundry.py"]
      (toL "*wait* foo(0xAB12,) Time delay: 10 seconds\n") demo2File = none :=
  ⟨by decide, by decide⟩

/-- C8 (counterexample): a `TestnetToken` creation transaction is keyed by
`arguments[1]` — the *second* constructor argument — not the first: for a
token transaction with arguments `["first", "second"]` the resulting map
has key `second` and no key `first`. -/
theorem c8_counterexample :
    buildContracts [tokTx] = some [(toL "second", toL "0xA1")] ∧
    tokTx.arguments[0]? = some (toL "first") ∧
    ¬ (toL "first" ∈ keysOf [(toL "second", toL "0xA1")]) :=
  ⟨by decide, by decide, by decide⟩

/-- C8 (amended): in the address-book builder, every creation transaction
whose contract name is `TestnetToken` is keyed in the output mapping by its
constructor argument at index 1 (the second argument); every other creation
transaction is keyed by its contract name. -/
theorem c8_amended (txs : List Tx) (d : List (List Char × List Char)) (tx : Tx)
    (h : buildContracts txs = some d) (htx : tx ∈ txs)
    (hc : tx.transactionType = createType) :
    (tx.contractName = tokenName →
      ∃ a, tx.arguments[1]? = some a ∧ a ∈ keysOf d) ∧
    (tx.contractName ≠ tokenName → tx.contractName ∈ keysOf d) := by
  have hmem : tx ∈ create_ct_txs txs := (mem_create_ct_txs tx txs).mpr ⟨htx, hc⟩
  unfold buildContracts at h
  obtain ⟨k, hk⟩ := addCreateTxs_ok (create_ct_txs txs) [] d tx h hmem
  have hkmem : k ∈ keysOf d := by
    rw [addCreateTxs_keys (create_ct_txs txs) [] d k h]
    exact Or.inr ⟨tx, hmem, hk⟩
  constructor
  · intro htok
    refine ⟨k, ?_, hkmem⟩
    rw [txKey, if_pos htok] at hk
    exact hk
  · intro hnt
    rw [txKey, if_neg hnt] at hk
    have : tx.contractName = k := Option.some.inj hk
    exact this ▸ hkmem

/-- C8 (witness for the amended claim): instance at the sample transaction
list, for its token transaction. -/
theorem c8_amended_w :
    buildContracts demoTxs = some demoDict ∧
    demoTok ∈ demoTxs ∧
    demoTok.transactionType = createType ∧
    ((demoTok.contractName = tokenName →
        ∃ a, demoTok.arguments[1]? = some a ∧ a ∈ keysOf demoDict) ∧
     (demoTok.contractName ≠ tokenName → demoTok.contractName ∈ keysOf demoDict)) :=
  ⟨by decide, by decide, by decide,
    c8_amended demoTxs demoDict demoTok (by decide) (by decide) (by decide)⟩

/-- C9: for every transaction list on which the builder succeeds, the
resulting mapping has pairwise-distinct keys; a name is a key exactly when
some creation transaction of the list produces it under the (implemented)
renaming rule; every entry's value is the contract address of such a
transaction; and non-CREATE transactions contribute nothing (restricting
the input to its CREATE transactions yields the same mapping). -/
theorem c9_mapping (txs : List Tx) (d : List (List Char × List Char))
    (h : buildContracts txs = some d) :
    (keysOf d).Nodup ∧
    (∀ n, n ∈ keysOf d ↔
      ∃ tx, tx ∈ txs ∧ tx.transactionType = createType ∧ txKey tx = some n) ∧
    (∀ p, p ∈ d → ∃ tx, tx ∈ txs ∧ tx.transactionType = createType ∧
        txKey tx = some p.1 ∧ p.2 = tx.contractAddress) ∧
    buildContracts (create_ct_txs txs) = some d := by
  have hfilter : create_ct_txs (create_ct_txs txs) = create_ct_txs txs := by
    simp [create_ct_txs, List.filter_filter]
  unfold buildContracts at h
  refine ⟨?_, ?_, ?_, ?_⟩
  · exact addCreateTxs_nodup _ [] d h (by simp [keysOf])
  · intro n
    rw [addCreateTxs_keys _ [] d n h]
    simp only [keysOf, List.map_nil, List.not_mem_nil, false_or]
    constructor
    · rintro ⟨tx, htx, hkey⟩
      obtain ⟨h1, h2⟩ := (mem_create_ct_txs tx txs).mp htx
      exact ⟨tx, h1, h2, hkey⟩
    · rintro ⟨tx, htx, hct, hkey⟩
      exact ⟨tx, (mem_create_ct_txs tx txs).mpr ⟨htx, hct⟩, hkey⟩
  · intro p hp
    rcases addCreateTxs_mem _ [] d p h hp with h1 | ⟨tx, htx, hkey, haddr⟩
    · cases h1
    · obtain ⟨h1, h2⟩ := (mem_create_ct_txs tx txs).mp htx
      exact ⟨tx, h1, h2, hkey, haddr⟩
  · unfold buildContracts
    rw [hfilter]
    exact h

/-- C9 (witness): instance at the sample transaction list. -/
theorem c9_mapping_w :
    buildContracts demoTxs = some demoDict ∧
    ((keysOf demoDict).Nodup ∧
     (∀ n, n ∈ keysOf demoDict ↔
       ∃ tx, tx ∈ demoTxs ∧ tx.transactionType = createType ∧ txKey tx = some n) ∧
     (∀ p, p ∈ demoDict → ∃ tx, tx ∈ demoTxs ∧ tx.transactionType = createType ∧
         txKey tx = some p.1 ∧ p.2 = tx.contractAddress) ∧
     buildContracts (create_ct_txs demoTxs) = some demoDict) :=
  ⟨by decide, c9_mapping demoTxs demoDict (by decide)⟩

/-- C10: invoked with the program name as the only element of the argument
list, the converter aborts with the uncaught index error while reading the
folder argument (the truthiness check `if len(sys.argv):` is satisfied by
the program name alone), before any file is opened, read or written: the
outcome is `none` whatever the contents of `example.txt` and of the target
file. -/
theorem c10_index_error (prog exampleTxt targetData : List Char) :
    runConverter [prog] exampleTxt targetData = none := by
  simp [runConverter, folderArg]


/-! ## Lemmas about replacement-template compilation -/

theorem parseRepl1_fuel_inv :
    ∀ (f1 : Nat) {f2 : Nat} {s : List Char}, s.length < f1 → s.length < f2 →
      parseRepl1 f1 s = parseRepl1 f2 s := by
  intro f1
  induction f1 with
  | zero => intro f2 s h1 _; omega
  | succ a ih =>
    intro f2 s h1 h2
    match f2, h2 with
    | b+1, h2 =>
      cases s with
      | nil => simp [parseRepl1]
      | cons c cs =>
        simp only [parseRepl1]
        cases hs : replStep (c :: cs) with
        | none => rfl
        | some p =>
          obtain ⟨em, k⟩ := p
          have hlen : (cs.drop k).length ≤ cs.length := by
            simp only [List.length_drop]
            omega
          have h1' : (cs.drop k).length < a := by
            simp only [List.length_cons] at h1
            omega
          have h2' : (cs.drop k).length < b := by
            simp only [List.length_cons] at h2
            omega
          show Option.map (fun t => em ++ t) (parseRepl1 a (List.drop k cs))
            = Option.map (fun t => em ++ t) (parseRepl1 b (List.drop k cs))
          rw [ih h1' h2']

theorem parseRepl_step {c : Char} {cs em : List Char} {k : Nat}
    (h : replStep (c :: cs) = some (em, k)) :
    parseRepl (c :: cs) = (parseRepl (cs.drop k)).map (fun t => em ++ t) := by
  show parseRepl1 ((c :: cs).length + 1) (c :: cs) = _
  simp only [List.length_cons, parseRepl1, h]
  rw [parseRepl1_fuel_inv (cs.length + 1)
    (by simp only [List.length_drop]; omega) (Nat.lt_succ_self _)]
  rfl

theorem replStep_lit {c : Char} (t : List Char) (hc : c ≠ '\\') :
    replStep (c :: t) = some ([c], 0) := by
  simp [replStep, hc]

theorem replStep_escn (t : List Char) :
    replStep ('\\' :: 'n' :: t) = some (['\n'], 1) := rfl

theorem parseRepl_nobs : ∀ (x y : List Char), '\\' ∉ x →
    parseRepl (x ++ y) = (parseRepl y).map (fun t => x ++ t) := by
  intro x
  induction x with
  | nil =>
    intro y _
    cases hy : parseRepl y <;> simp [hy]
  | cons c x' ih =>
    intro y hbs
    have hc : c ≠ '\\' := by
      intro hcc
      exact hbs (hcc ▸ List.mem_cons_self c x')
    have hbs' : '\\' ∉ x' := fun hm => hbs (List.mem_cons_of_mem c hm)
    rw [List.cons_append, parseRepl_step (replStep_lit (x' ++ y) hc)]
    simp only [List.drop_zero]
    rw [ih y hbs']
    cases hy : parseRepl y <;> simp [hy]

theorem parseRepl_nil : parseRepl ([] : List Char) = some [] := rfl

theorem parseRepl_nobs_self (x : List Char) (h : '\\' ∉ x) :
    parseRepl x = some x := by
  have := parseRepl_nobs x [] h
  rw [parseRepl_nil] at this
  simpa using this

theorem parseRepl_escn (y : List Char) :
    parseRepl ('\\' :: 'n' :: y) = (parseRepl y).map (fun t => '\n' :: t) := by
  rw [parseRepl_step (replStep_escn y)]
  rw [show List.drop 1 ('n' :: y) = y from rfl]
  cases hy : parseRepl y <;> simp [hy]

theorem digitChar_ne_bs (m : Nat) (h : m < 10) : Nat.digitChar m ≠ '\\' := by
  interval_cases m <;> decide

theorem toDigitsCore_ne_bs :
    ∀ (fuel n : Nat) (ds : List Char), (∀ c ∈ ds, c ≠ '\\') →
      ∀ c ∈ Nat.toDigitsCore 10 fuel n ds, c ≠ '\\' := by
  intro fuel
  induction fuel with
  | zero =>
    intro n ds h
    simpa [Nat.toDigitsCore] using h
  | succ f ih =>
    intro n ds h c hc
    simp only [Nat.toDigitsCore] at hc
    by_cases hz : n / 10 = 0
    · rw [if_pos hz] at hc
      rcases List.mem_cons.mp hc with h1 | h2
      · exact h1 ▸ digitChar_ne_bs _ (Nat.mod_lt _ (by omega))
      · exact h c h2
    · rw [if_neg hz] at hc
      refine ih (n / 10) _ ?_ c hc
      intro x hx
      rcases List.mem_cons.mp hx with h1 | h2
      · exact h1 ▸ digitChar_ne_bs _ (Nat.mod_lt _ (by omega))
      · exact h x h2

theorem repr_ne_bs (n : Nat) : '\\' ∉ toL (Nat.repr n) := by
  intro hmem
  have hd : ∀ c ∈ Nat.toDigits 10 n, c ≠ '\\' :=
    toDigitsCore_ne_bs (n + 1) n [] (by simp)
  have he : toL (Nat.repr n) = Nat.toDigits 10 n := rfl
  exact hd '\\' (he ▸ hmem) rfl

theorem replNest (x y : List Char) :
    toL "\x7d" ++ ('\n' :: ('\n' :: (toL "    function test_" ++ (x ++
      (toL "() public \x7b" ++ ('\n' :: (y ++ (toL "    \x7d" ++
      ('\n' :: toL "\x7d"))))))))) =
    toL "\x7d\n\n    function test_" ++ x ++ toL "() public \x7b\n" ++ y ++
      toL "    \x7d\n\x7d" := by
  have d1 : toL "\x7d\n\n    function test_"
      = toL "\x7d" ++ ('\n' :: ('\n' :: toL "    function test_")) := by decide
  have d2 : toL "() public \x7b\n" = toL "() public \x7b" ++ ['\n'] := by decide
  have d3 : toL "    \x7d\n\x7d" = toL "    \x7d" ++ ('\n' :: toL "\x7d") := by decide
  rw [d1, d2, d3]
  simp [List.append_assoc]

theorem parseRepl_replSrc (n : Nat) (content : List Char) (h : '\\' ∉ content) :
    parseRepl (replSrc n content) = some (mkRepl n content) := by
  have e1 : replSrc n content
      = toL "\x7d" ++ ('\\' :: 'n' :: ('\\' :: 'n' :: (toL "    function test_" ++
        (toL (Nat.repr n) ++ (toL "() public \x7b" ++ ('\\' :: 'n' :: (content ++
        (toL "    \x7d" ++ ('\\' :: 'n' :: toL "\x7d"))))))))) := by
    rw [replSrc]
    have d1 : toL "\x7d\\n\\n    function test_"
        = toL "\x7d" ++ ('\\' :: 'n' :: ('\\' :: 'n' :: toL "    function test_")) := by
      decide
    have d2 : toL "() public \x7b\\n"
        = toL "() public \x7b" ++ ('\\' :: 'n' :: ([] : List Char)) := by decide
    have d3 : toL "    \x7d\\n\x7d"
        = toL "    \x7d" ++ ('\\' :: 'n' :: toL "\x7d") := by decide
    rw [d1, d2, d3]
    simp [List.append_assoc]
  rw [e1]
  rw [parseRepl_nobs (toL "\x7d") _ (by decide)]
  rw [parseRepl_escn, parseRepl_escn]
  rw [parseRepl_nobs (toL "    function test_") _ (by decide)]
  rw [parseRepl_nobs (toL (Nat.repr n)) _ (repr_ne_bs n)]
  rw [parseRepl_nobs (toL "() public \x7b") _ (by decide)]
  rw [parseRepl_escn]
  rw [parseRepl_nobs content _ h]
  rw [parseRepl_nobs (toL "    \x7d") _ (by decide)]
  rw [parseRepl_escn]
  rw [parseRepl_nobs_self (toL "\x7d") (by decide)]
  simp only [Option.map_some']
  rw [mkRepl]
  rw [← replNest (toL (Nat.repr n)) content]

/-! ## Further lemmas about literal-pattern substitution -/

theorem reSub1_fuel_inv (pat : List RItem) (tmpl : List TPart) :
    ∀ (f1 : Nat) {f2 : Nat} {s : List Char}, s.length < f1 → s.length < f2 →
      reSub1 pat tmpl f1 s = reSub1 pat tmpl f2 s := by
  intro f1
  induction f1 with
  | zero => intro f2 s h1 _; omega
  | succ a ih =>
    intro f2 s h1 h2
    match f2, h2 with
    | b+1, h2 =>
      cases s with
      | nil => simp [reSub1]
      | cons c cs =>
        have hc1 : cs.length < a := by
          simp only [List.length_cons] at h1
          omega
        have hc2 : cs.length < b := by
          simp only [List.length_cons] at h2
          omega
        simp only [reSub1]
        cases hm : matchItems (pat.length + 1) pat ⟨none, []⟩ (c :: cs) with
        | none =>
          show c :: reSub1 pat tmpl a cs = c :: reSub1 pat tmpl b cs
          rw [ih hc1 hc2]
        | some pr =>
          obtain ⟨rem, gs⟩ := pr
          show (if (c :: cs).length - rem.length = 0 then c :: reSub1 pat tmpl a cs
                else instT gs tmpl ++
                  reSub1 pat tmpl a (List.drop ((c :: cs).length - rem.length) (c :: cs)))
              = (if (c :: cs).length - rem.length = 0 then c :: reSub1 pat tmpl b cs
                else instT gs tmpl ++
                  reSub1 pat tmpl b (List.drop ((c :: cs).length - rem.length) (c :: cs)))
          by_cases hz : (c :: cs).length - rem.length = 0
          · rw [if_pos hz, if_pos hz, ih hc1 hc2]
          · rw [if_neg hz, if_neg hz]
            have hd1 : (List.drop ((c :: cs).length - rem.length) (c :: cs)).length < a := by
              simp only [List.length_drop, List.length_cons] at *
              omega
            have hd2 : (List.drop ((c :: cs).length - rem.length) (c :: cs)).length < b := by
              simp only [List.length_drop, List.length_cons] at *
              omega
            rw [ih hd1 hd2]

theorem reSub_lit_cons (pat repl : List Char) (c : Char) (cs : List Char)
    (h : ¬ (pat <+: (c :: cs))) :
    reSub (litItems pat) [TPart.lit repl] (c :: cs)
      = c :: reSub (litItems pat) [TPart.lit repl] cs := by
  have hm := matchItems_lit pat ((litItems pat).length + 1) ⟨none, []⟩ (c :: cs)
    (by simp [litItems])
  have hpre : pat.isPrefixOf (c :: cs) = false :=
    Bool.eq_false_iff.mpr (fun hT => h (List.isPrefixOf_iff_prefix.mp hT))
  show reSub1 (litItems pat) [TPart.lit repl] ((c :: cs).length + 1) (c :: cs) = _
  simp only [List.length_cons, reSub1, hm, hpre, Bool.false_eq_true, if_false]
  rfl

theorem reSub_lit_head (pat repl tail : List Char) (hne : pat ≠ []) :
    reSub (litItems pat) [TPart.lit repl] (pat ++ tail)
      = repl ++ reSub (litItems pat) [TPart.lit repl] tail := by
  have hplen : 1 ≤ pat.length := by
    cases pat with
    | nil => exact absurd rfl hne
    | cons p ps => simp
  cases hp : pat with
  | nil => exact absurd hp hne
  | cons p ps =>
    rw [← hp]
    have hform : pat ++ tail = p :: (ps ++ tail) := by rw [hp]; rfl
    rw [hform]
    have hm := matchItems_lit pat ((litItems pat).length + 1) ⟨none, []⟩
      (p :: (ps ++ tail)) (by simp [litItems])
    have hpre : pat.isPrefixOf (p :: (ps ++ tail)) = true := by
      rw [← hform]
      exact List.isPrefixOf_iff_prefix.mpr (List.prefix_append pat tail)
    show reSub1 (litItems pat) [TPart.lit repl] ((p :: (ps ++ tail)).length + 1)
        (p :: (ps ++ tail)) = _
    simp only [List.length_cons, reSub1, hm, hpre, if_true]
    have hlen1 : (ps ++ tail).length + 1 = pat.length + tail.length := by
      have : (pat ++ tail).length = pat.length + tail.length := by simp
      rw [hform] at this
      simpa using this
    have hdlen : (List.drop pat.length (p :: (ps ++ tail))).length = tail.length := by
      simp only [List.length_drop, List.length_cons]
      omega
    rw [hdlen]
    have hnz : (ps ++ tail).length + 1 - tail.length ≠ 0 := by omega
    rw [if_neg hnz]
    have hdrop : List.drop ((ps ++ tail).length + 1 - tail.length) (p :: (ps ++ tail))
        = tail := by
      have hc : (ps ++ tail).length + 1 - tail.length = pat.length := by omega
      rw [hc, ← hform]
      exact List.drop_left pat tail
    rw [hdrop]
    rw [reSub1_fuel_inv (litItems pat) [TPart.lit repl] ((ps ++ tail).length + 1)
      (by omega) (Nat.lt_succ_self _)]
    simp only [instT, List.append_nil]
    rfl

theorem reSub_lit_shift (pat repl : List Char) :
    ∀ (a t : List Char), (∀ i, i < a.length → ¬ (pat <+: (a ++ t).drop i)) →
      reSub (litItems pat) [TPart.lit repl] (a ++ t)
        = a ++ reSub (litItems pat) [TPart.lit repl] t := by
  intro a
  induction a with
  | nil => intro t _; simp
  | cons c a' ih =>
    intro t h
    have h0 : ¬ (pat <+: (c :: (a' ++ t))) := by
      have := h 0 (by simp)
      simpa using this
    have h1 : ∀ i, i < a'.length → ¬ (pat <+: (a' ++ t).drop i) := by
      intro i hi
      have := h (i + 1) (by simp only [List.length_cons]; omega)
      simpa [List.drop_succ_cons] using this
    rw [List.cons_append, reSub_lit_cons pat repl c (a' ++ t) h0, ih t h1]
    rfl

theorem reSub_lit_multi (pat repl : List Char) (hne : pat ≠ []) :
    ∀ (segs : List (List Char)), segs ≠ [] → sepClean pat segs →
      reSub (litItems pat) [TPart.lit repl] (sepJoin pat segs) = sepJoin repl segs := by
  intro segs
  induction segs with
  | nil => intro hn _; exact absurd rfl hn
  | cons s rest ih =>
    intro _ hclean
    cases rest with
    | nil =>
      simp only [sepJoin]
      simp only [sepClean] at hclean
      exact reSub1_lit_id pat repl (s.length + 1) s (Nat.lt_succ_self _) hclean
    | cons s2 rest2 =>
      simp only [sepJoin, sepClean] at hclean ⊢
      obtain ⟨h1, h2⟩ := hclean
      have hassoc : s ++ pat ++ sepJoin pat (s2 :: rest2)
          = s ++ (pat ++ sepJoin pat (s2 :: rest2)) := by
        simp [List.append_assoc]
      rw [hassoc]
      rw [reSub_lit_shift pat repl s (pat ++ sepJoin pat (s2 :: rest2))
        (by intro i hi; rw [← hassoc]; exact h1 i hi)]
      rw [reSub_lit_head pat repl (sepJoin pat (s2 :: rest2)) hne]
      rw [ih (by simp) h2]
      simp [List.append_assoc]

/-- C4 (counterexample): when the closing sequence occurs twice, the splicer
(`re.sub`) replaces *both* occurrences, not only the last: on the file
content `A}\n}B}\n}` both occurrences receive the inserted function, so the
result differs from the last-occurrence-only expectation. -/
theorem c4_counterexample :
    fillFileData [] (toL "A\x7d\n\x7dB\x7d\n\x7d") =
      some (toL "A\x7d\n\n    function test_0() public \x7b\n    \x7d\n\x7dB\x7d\n\n    function test_0() public \x7b\n    \x7d\n\x7d") ∧
    fillFileData [] (toL "A\x7d\n\x7dB\x7d\n\x7d") ≠
      some (toL "A\x7d\n\x7dB\x7d\n\n    function test_0() public \x7b\n    \x7d\n\x7d") :=
  ⟨by decide, by decide⟩

/-- C4 (amended): for every target-file content and every number of
occurrences of the two-adjacent-closing-markers sequence — the content
decomposed as `sepJoin closeSeq segs` with at least one separator and no
other occurrence of the sequence — and every StatementBlock whose
replacement template compiles to a literal (in particular one containing no
backslash), the splicer replaces *every* occurrence (scanning left to
right, non-overlapping) with the new test-function definition followed by
the original closing sequence, leaving every segment unchanged; only when
the sequence occurs exactly once does this coincide with replacing the
last occurrence. -/
theorem c4_amended (content : List Char) (segs : List (List Char))
    (hlen : 2 ≤ segs.length) (hclean : sepClean closeSeq segs)
    (hbs : '\\' ∉ content) :
    fillFileData content (sepJoin closeSeq segs)
      = some (sepJoin
          (mkRepl (pyCount (sepJoin closeSeq segs) kwFunction) content) segs) := by
  have hne : segs ≠ [] := by
    intro h
    subst h
    simp at hlen
  simp only [fillFileData]
  rw [parseRepl_replSrc _ content hbs]
  simp only [Option.map_some']
  rw [reSub_lit_multi closeSeq _ (by decide) segs hne hclean]

/-- C4 (witness for the amended claim): a two-occurrence file, the same
input as the counterexample, with both occurrences replaced. -/
theorem c4_amended_w :
    2 ≤ ([toL "A", toL "B", toL ""] : List (List Char)).length ∧
    sepClean closeSeq [toL "A", toL "B", toL ""] ∧
    '\\' ∉ ([] : List Char) ∧
    fillFileData [] (sepJoin closeSeq [toL "A", toL "B", toL ""])
      = some (sepJoin
          (mkRepl (pyCount (sepJoin closeSeq [toL "A", toL "B", toL ""]) kwFunction) [])
          [toL "A", toL "B", toL ""]) :=
  ⟨by decide, by (simp only [sepClean, sepJoin]; decide), by decide,
    c4_amended [] [toL "A", toL "B", toL ""] (by decide)
      (by simp only [sepClean, sepJoin]; decide) (by decide)⟩

/-- C5: for every target file containing the closing sequence and every
StatementBlock whose template compiles to a literal (in particular one with
no backslash), the splicer succeeds and the new test function is named with
the fixed prefix `test_` and the numeric suffix equal to the number of
occurrences of the keyword `function` in the target file before insertion
(zero-based): the output contains the definition header
`function test_<count>() public {`. -/
theorem c5_name_suffix (content data : List Char)
    (hocc : closeSeq <:+: data) (hbs : '\\' ∉ content) :
    ∃ out, fillFileData content data = some out ∧
      toL "function test_" ++ toL (Nat.repr (pyCount data kwFunction)) ++
        toL "() public \x7b" <:+: out := by
  simp only [fillFileData]
  rw [parseRepl_replSrc _ content hbs]
  simp only [Option.map_some']
  refine ⟨_, rfl, ?_⟩
  have h1 : mkRepl (pyCount data kwFunction) content <:+:
      reSub (litItems closeSeq)
        [TPart.lit (mkRepl (pyCount data kwFunction) content)] data :=
    reSub1_lit_infix closeSeq _ (by decide) (data.length + 1) data
      (Nat.lt_succ_self _) hocc
  refine List.IsInfix.trans ?_ h1
  refine ⟨toL "\x7d\n\n    ", toL "\n" ++ (content ++ toL "    \x7d\n\x7d"), ?_⟩
  have d1 : toL "\x7d\n\n    function test_"
      = toL "\x7d\n\n    " ++ toL "function test_" := by decide
  have d2 : toL "() public \x7b\n" = toL "() public \x7b" ++ toL "\n" := by decide
  rw [mkRepl, d1, d2]
  simp [List.append_assoc]

/-- C5 (witness): a target file with exactly two `function` occurrences
yields a new function named `test_2` (Scenario 2). -/
theorem c5_name_suffix_w :
    (closeSeq <:+: demo2File) ∧ pyCount demo2File kwFunction = 2 ∧
    '\\' ∉ ([] : List Char) ∧
    (∃ out, fillFileData [] demo2File = some out ∧
      toL "function test_" ++ toL (Nat.repr (pyCount demo2File kwFunction)) ++
        toL "() public \x7b" <:+: out) :=
  ⟨by decide, by decide, by decide,
    c5_name_suffix [] demo2File (by decide) (by decide)⟩

/-- C6 (counterexample): the splicer can raise an error even though the
closing sequence is absent from the target file: with the StatementBlock
`\q`, `re.sub` raises `re.error` ("bad escape") while compiling the
replacement template — before looking for a match — so the file is not
written back unchanged, refuting "the splicer raises no error". -/
theorem c6_counterexample :
    ¬ (closeSeq <:+: toL "hello") ∧
    fillFileData (toL "\\q") (toL "hello") = none ∧
    fillFileData (toL "\\q") (toL "hello") ≠ some (toL "hello") :=
  ⟨by decide, by decide, by decide⟩

/-- C6 (amended): if the two-adjacent-closing-markers sequence occurs
nowhere in the target file's content *and* the replacement template built
from the StatementBlock compiles (in particular whenever the block contains
no backslash — true of every escape-free converter output), the splicer
raises no error and writes the file back with its content unchanged; a
block with an invalid escape or group reference instead makes `re.sub`
raise `re.error` eagerly, even though no insertion point exists. -/
theorem c6_no_marker (content data : List Char) (h : ¬ (closeSeq <:+: data))
    (hbs : '\\' ∉ content) :
    fillFileData content data = some data := by
  simp only [fillFileData]
  rw [parseRepl_replSrc _ content hbs]
  simp only [Option.map_some']
  have hid : reSub (litItems closeSeq)
      [TPart.lit (mkRepl (pyCount data kwFunction) content)] data = data :=
    reSub1_lit_id closeSeq _ (data.length + 1) data (Nat.lt_succ_self _) h
  rw [hid]

/-- C6 (witness for the amended claim): a file without the closing sequence
and a backslash-free block leave the file unchanged. -/
theorem c6_no_marker_w :
    ¬ (closeSeq <:+: toL "contract C") ∧ '\\' ∉ toL "x\n" ∧
    fillFileData (toL "x\n") (toL "contract C") = some (toL "contract C") :=
  ⟨by decide, by decide,
    c6_no_marker (toL "x\n") (toL "contract C") (by decide) (by decide)⟩
